import Mathlib

/-!
Verification of the hosby-cli schema pipeline and sync engine.

The TypeScript sources are shallowly embedded: JSON values become the
inductive `Json` (JS numbers are modelled as exact integers, which agrees
with the source for every value whose intermediate hash arithmetic stays
below 2^53; character codes are Unicode code points, which agrees with
JS UTF-16 code units on the Basic Multilingual Plane), JS objects become
association lists in insertion order, and effectful functions become pure
functions from their injected outcomes (file contents, network results,
interactive answers) to traces of observable events.
-/

namespace Hosby

/-- JSON value produced by `JSON.parse`, in JS object insertion order. -/
inductive Json where
  | str  : String → Json
  | num  : Int → Json
  | bool : Bool → Json
  | null : Json
  | arr  : List Json → Json
  | obj  : List (String × Json) → Json
deriving Repr, BEq

/-- JS truthiness of a value (`!!v`). -/
def jsTruthy : Json → Bool
  | .str s  => s ≠ ""
  | .num n  => n ≠ 0
  | .bool b => b
  | .null   => false
  | .arr _  => true
  | .obj _  => true

/-- Whether `typeof v === 'object'` holds in JS (arrays and `null` included). -/
def jsTypeofIsObject : Json → Bool
  | .arr _ => true
  | .obj _ => true
  | .null  => true
  | _      => false

/-- Whether the value is JS `null`. -/
def jsIsNull : Json → Bool
  | .null => true
  | _     => false

/-- Whether `typeof v === 'string'` holds in JS. -/
def jsIsString : Json → Bool
  | .str _ => true
  | _      => false

/-- Whether `Array.isArray v` holds in JS. -/
def jsIsArray : Json → Bool
  | .arr _ => true
  | _      => false

/-- String conversion `String(v)` for the scalar values that reach it in
`sanitizeSchema` (numbers, booleans, `null`). -/
def jsToString : Json → String
  | .str s     => s
  | .num n     => toString n
  | .bool true  => "true"
  | .bool false => "false"
  | .null      => "null"
  | .arr _     => ""
  | .obj _     => ""

/-- First binding of key `k` in a JS object entry list (`o[k]`). -/
def lookupEntry (k : String) : List (String × Json) → Option Json
  | [] => none
  | (k', v) :: rest => if k' = k then some v else lookupEntry k rest

/-- Assignment `o[k] = v` on an entry list: overrides the first existing
binding in place, otherwise appends (JS property insertion order). -/
def setEntry (k : String) (v : Json) : List (String × Json) → List (String × Json)
  | [] => [(k, v)]
  | (k', w) :: rest => if k' = k then (k, v) :: rest else (k', w) :: setEntry k v rest

/-! ## Stable JSON stringification (`getSchemaHash`, src/src/helpers/utils.ts)

`getSchemaHash` serialises the schema with `JSON.stringify` under a replacer
that rewrites every object with its keys sorted, then runs a djb2-style
rolling hash written with JS 32-bit shifts, masks to 31 bits and renders the
result in base 36. -/

/-- Key comparison used when sorting object entries (`Object.keys(v).sort()`);
entries are ordered by their key string. -/
def keyLE (p q : String × String) : Prop := p.1 ≤ q.1

instance : DecidableRel keyLE := fun p q => inferInstanceAs (Decidable (p.1 ≤ q.1))

instance : IsTotal (String × String) keyLE := ⟨fun p q => le_total p.1 q.1⟩

instance : IsTrans (String × String) keyLE := ⟨fun _ _ _ h h' => le_trans h h'⟩

/-- Hexadecimal digit character, lowercase as in JS. -/
def hexDigitChar (n : Nat) : Char :=
  if n < 10 then Char.ofNat (48 + n) else Char.ofNat (87 + n)

/-- JSON string escaping as performed by `JSON.stringify` on BMP text:
quote, backslash and control characters are escaped. -/
def escapeChar (c : Char) : String :=
  if c = '"' then "\\\""
  else if c = '\\' then "\\\\"
  else if c = Char.ofNat 8 then "\\b"
  else if c = Char.ofNat 9 then "\\t"
  else if c = Char.ofNat 10 then "\\n"
  else if c = Char.ofNat 12 then "\\f"
  else if c = Char.ofNat 13 then "\\r"
  else if c.toNat < 32 then
    "\\u00" ++ String.mk [hexDigitChar (c.toNat / 16), hexDigitChar (c.toNat % 16)]
  else String.singleton c

/-- Rendering of a JSON string literal, with surrounding quotes. -/
def renderJString (s : String) : String :=
  "\"" ++ String.join (s.data.map escapeChar) ++ "\""

/-- Rendering of one `"key":value` pair whose value is already rendered. -/
def renderEntry (p : String × String) : String :=
  renderJString p.1 ++ ":" ++ p.2

mutual

/-- The stable JSON string of `getSchemaHash`: `JSON.stringify` with the
key-sorting replacer, so every object is emitted with its keys sorted while
arrays keep their element order. -/
def stableStringify : Json → String
  | .str s     => renderJString s
  | .num n     => toString n
  | .bool true  => "true"
  | .bool false => "false"
  | .null      => "null"
  | .arr l     => "[" ++ String.intercalate "," (stringifyList l) ++ "]"
  | .obj l     =>
      "\x7b" ++
        String.intercalate ","
          ((List.insertionSort keyLE (stringifyEntries l)).map renderEntry) ++
      "\x7d"

/-- Rendered elements of an array, in order. -/
def stringifyList : List Json → List String
  | [] => []
  | v :: vs => stableStringify v :: stringifyList vs

/-- Object entries with their values rendered (sorting an entry list by key
commutes with rendering the values, since only keys are compared). -/
def stringifyEntries : List (String × Json) → List (String × String)
  | [] => []
  | (k, v) :: es => (k, stableStringify v) :: stringifyEntries es

end

/-- Signed 32-bit wraparound `ToInt32` applied by the JS `<<` operator. -/
def toInt32 (x : Int) : Int :=
  if x % 4294967296 < 2147483648 then x % 4294967296 else x % 4294967296 - 4294967296

/-- One step of the rolling hash: `hash = ((hash << 5) + hash) + charCode`. -/
def hashStep (h : Int) (c : Char) : Int :=
  toInt32 (toInt32 h * 32) + h + (c.toNat : Int)

/-- The rolling-hash accumulator over a string, seeded with 5381. -/
def jsHashString (s : String) : Int :=
  s.data.foldl hashStep 5381

/-- The final `hash & 0x7FFFFFFF`: reduce the accumulator to its unsigned
32-bit representation and keep the low 31 bits. -/
def jsAnd31 (x : Int) : Nat :=
  (x % 4294967296).toNat % 2147483648

/-- Base-36 digit characters `0-9a-z` as used by `Number.prototype.toString(36)`. -/
def digitChar36 (n : Nat) : Char :=
  if n < 10 then Char.ofNat (48 + n) else Char.ofNat (87 + n)

/-- Big-endian base-36 digit accumulation; structural recursion on a fuel
argument (passing the number itself as fuel always suffices, since the
remaining value strictly decreases under division by 36). -/
def toBase36Core (fuel : Nat) (n : Nat) (acc : List Char) : List Char :=
  match fuel with
  | 0 => acc
  | fuel + 1 => if n = 0 then acc else toBase36Core fuel (n / 36) (digitChar36 (n % 36) :: acc)

/-- JS `n.toString(36)` for a nonnegative integer. -/
def toBase36 (n : Nat) : String :=
  if n = 0 then "0" else String.mk (toBase36Core n n [])

/-- Hash of a schema document (`getSchemaHash` of src/src/helpers/utils.ts). -/
def getSchemaHash (d : Json) : String :=
  toBase36 (jsAnd31 (jsHashString (stableStringify d)))

/-- The pure polynomial rolling hash `h := 33*h + code`, seeded with 5381,
used to state that the JS computation is that hash masked to 31 bits. -/
def djb2 (s : String) : Nat :=
  s.data.foldl (fun h c => 33 * h + c.toNat) 5381

/-! ## Key-order invariance of the stable stringification -/

/-- Two JSON documents with identical content up to reordering of object keys
(at any depth); array element order is preserved.  The object case permutes
the entry list (`hperm`) and then relates entries pointwise (`hv`); JS object
keys are unique, which the `hnodup` premise records. -/
inductive KeyPerm : Json → Json → Prop where
  | str (s : String) : KeyPerm (.str s) (.str s)
  | num (n : Int) : KeyPerm (.num n) (.num n)
  | bool (b : Bool) : KeyPerm (.bool b) (.bool b)
  | null : KeyPerm .null .null
  | arr (l l' : List Json) (hlen : l.length = l'.length)
      (hv : ∀ (i : Nat) (v v' : Json), l[i]? = some v → l'[i]? = some v' → KeyPerm v v') :
      KeyPerm (.arr l) (.arr l')
  | obj (l m l' : List (String × Json)) (hperm : l.Perm m)
      (hnodup : (l.map Prod.fst).Nodup)
      (hkeys : m.map Prod.fst = l'.map Prod.fst)
      (hlen : m.length = l'.length)
      (hv : ∀ (i : Nat) (p q : String × Json),
        m[i]? = some p → l'[i]? = some q → KeyPerm p.2 q.2) :
      KeyPerm (.obj l) (.obj l')

/-- Strict variant of the entry ordering, antisymmetric by vacuity. -/
def keyLT (p q : String × String) : Prop := p.1 < q.1

instance : IsAntisymm (String × String) keyLT :=
  ⟨fun _ _ h h' => absurd h' (lt_asymm h)⟩

/-! ## Schema sanitization and filtering (src/src/helpers/filterSchema.ts) -/

/-- Supported column data types in the Hosby schema (`VALID_COLUMN_TYPES`). -/
def VALID_COLUMN_TYPES : List String :=
  ["string", "number", "boolean", "date", "array", "object", "enum"]

/-- Whether `p` occurs as a contiguous run inside `s`. -/
def isInfixList (p : List Char) : List Char → Bool
  | [] => p.isEmpty
  | ch :: rest => p.isPrefixOf (ch :: rest) || isInfixList p rest

/-- Substring containment on strings (JS `String.prototype.includes`). -/
def containsSub (s sub : String) : Bool :=
  isInfixList sub.data s.data

/-- Drops everything up to and including the first occurrence of `p`,
returning the remainder; `none` when `p` does not occur. -/
def findSub (p : List Char) : List Char → Option (List Char)
  | [] => if p.isEmpty then some [] else none
  | ch :: rest =>
      if p.isPrefixOf (ch :: rest) then some (List.drop p.length (ch :: rest))
      else findSub p rest

/-- Sequential leftmost search of several fragments, each after the previous. -/
def seqSearch : List (List Char) → List Char → Option (List Char)
  | [], s => some s
  | p :: ps, s =>
      match findSub p s with
      | some rest => seqSearch ps rest
      | none => none

/-- Matching of an `IGNORED_COMPONENTS` pattern against a table name, as the
regular expression `'^' + pattern.replace(/\*/g, '.*') + '$'` with the
case-insensitive flag (both sides are lowercased by the caller). -/
def globMatch (pattern s : String) : Bool :=
  match (pattern.splitOn "*").map String.data with
  | [] => s.data.isEmpty
  | p0 :: rest =>
      if rest.isEmpty then s == pattern
      else
        p0.isPrefixOf s.data &&
          (match seqSearch rest.dropLast (s.data.drop p0.length) with
           | some rem => (rest.getLast!).isSuffixOf rem
           | none => false)

/-- List of component names to ignore when scanning projects
(`IGNORED_COMPONENTS` of src/src/helpers/ignoreFiles.ts). -/
def IGNORED_COMPONENTS : List String :=
  ["buttonprops", "buttonpropss", "badgeprops", "badgepropss",
   "sheetcontentprops", "sheetcontentpropss", "sheetprops", "sheetpropss",
   "tooltipprops", "tooltippropss", "toastprops", "toastpropss",
   "modalprops", "modalpropss", "columnmodalprops", "columnmodalpropss",
   "droppablecolumnprops", "droppablecolumnpropss", "taskcardprops",
   "taskcardpropss", "taskmodalprops", "taskmodalpropss",
   "calendar", "calendars", "command", "commands", "dialog", "dialogs",
   "alert", "alerts", "alertdialog", "alertdialogs", "accordion",
   "accordions", "tooltip", "tooltips", "toast", "toasts",
   "state", "states"]

/-- UI-suffix patterns of `isUIComponentTable`. -/
def uiPatterns : List String :=
  ["props", "state", "config", "options", "context",
   "button", "modal", "dialog", "card", "panel", "menu", "nav",
   "form", "input", "select", "checkbox", "radio", "switch",
   "dropdown", "tooltip", "popover", "toast", "notification",
   "spinner", "loader", "progress", "skeleton", "icon",
   "avatar", "badge", "tag", "label", "tab", "accordion",
   "slider", "pagination", "breadcrumb", "stepper", "timeline",
   "component", "element", "widget", "view", "control", "renderer"]

/-- Determines if a (lowercased) table name appears to be a UI component. -/
def isUIComponentTable (tableName : String) : Bool :=
  uiPatterns.any (fun pattern =>
      tableName.endsWith pattern || tableName.endsWith (pattern ++ "s")) ||
    (containsSub tableName "ui" ||
     containsSub tableName "layout" ||
     containsSub tableName "style" ||
     containsSub tableName "theme" ||
     containsSub tableName "display")

/-- A schema document, with the fields declared by the `HosbySchema`
interface: the `tables` object (absent ↦ `none`), the optional `metadata`
object and the optional `version` string. -/
structure SchemaDoc where
  tables   : Option (List (String × Json))
  metadata : Option (List (String × Json))
  version  : Option String
deriving Repr, BEq

/-- Sanitization of a single column definition, mirroring the branch order of
the source: the `typeof columnDef === 'object'` test (which arrays satisfy)
runs before the `Array.isArray` test, so the latter is unreachable for
arrays. -/
def sanitizeColumn (v : Json) : Json :=
  if jsTypeofIsObject v && !(jsIsNull v) then
    match v with
    | .obj l =>
        (match lookupEntry "type" l with
         | some (.str t) =>
             if VALID_COLUMN_TYPES.contains t then v
             else .obj (setEntry "type" (.str "string") l)
         | _ => .obj (setEntry "type" (.str "string") l))
    | .arr l =>
        -- `'type' in columnDef` is false for an array, so the else branch
        -- runs: `{...columnDef, type: 'string'}` spreads the array into an
        -- object with its indices as keys.
        .obj ((l.enum.map (fun p => (toString p.1, p.2))) ++ [("type", .str "string")])
    | _ => v
  else if jsIsString v then
    match v with
    | .str s =>
        let lower := s.toLower
        if lower.startsWith "enum[" || lower.startsWith "enum:[" then v
        else if VALID_COLUMN_TYPES.any (fun t =>
            lower == t || lower.startsWith (t ++ ":") || lower.startsWith (t ++ "[")) then v
        else .str "string"
    | _ => v
  else if jsIsArray v then .str "array"
  else .str (jsToString v)

/-- Sanitization of one table value: falsy or non-object values are replaced
by an empty table, otherwise every own property is sanitized in place
(arrays count as objects and keep their array shape under index
assignment). -/
def sanitizeTableVal (tv : Json) : Json :=
  if !(jsTruthy tv) || !(jsTypeofIsObject tv) then .obj []
  else
    match tv with
    | .obj l => .obj (l.map (fun p => (p.1, sanitizeColumn p.2)))
    | .arr l => .arr (l.map sanitizeColumn)
    | _ => .obj []

/-- Sanitizes schema column types (`sanitizeSchema`): a missing `tables`
field is replaced by an empty object and the document returned unchanged
otherwise; with `tables` present every table is sanitized.  Only the
`tables` field is touched. -/
def sanitizeSchema (d : SchemaDoc) : SchemaDoc :=
  match d.tables with
  | none => { d with tables := some [] }
  | some ts => { d with tables := some (ts.map (fun p => (p.1, sanitizeTableVal p.2))) }

/-- The keep-condition of the `filterSchema` loop for one `[table, columns]`
entry: skip non-object column maps, then require at least one column, no
match in the ignore list and no UI-component name. -/
def keepTable (p : String × Json) : Bool :=
  if !(jsTruthy p.2) || !(jsTypeofIsObject p.2) then false
  else
    let hasColumns :=
      (match p.2 with
       | .obj l => l.length
       | .arr l => l.length
       | _ => 0) > 0
    let tableLower := p.1.toLower
    let isIgnoredByPattern := IGNORED_COMPONENTS.any (fun pattern =>
      if containsSub pattern "*" then globMatch pattern.toLower tableLower
      else tableLower == pattern.toLower)
    let isUIComponent := isUIComponentTable tableLower
    hasColumns && !isIgnoredByPattern && !isUIComponent

/-- Filters the schema (`filterSchema`): documents without a `tables` object
collapse to `{tables: {}}`; otherwise tables are filtered by `keepTable`,
`version` defaults through JS falsiness (`schema.version || '1.0.0'`) and
`metadata` through `schema.metadata || {}`. -/
def filterSchema (d : SchemaDoc) : SchemaDoc :=
  match d.tables with
  | none => { tables := some [], metadata := none, version := none }
  | some ts =>
      { tables := some (ts.filter keepTable)
        version := some (match d.version with
          | some v => if v = "" then "1.0.0" else v
          | none => "1.0.0")
        metadata := some (match d.metadata with
          | some m => m
          | none => []) }

/-! ## Pull synchronization (src/src/services/pull.service.ts)

The effectful pull pipeline is modelled as a pure function from its inputs
(the parsed server response, the local schema and hash, the schema file's
modification time and the recorded last-pull time, both in epoch
milliseconds, and the answers the user would give to the two interactive
prompts) to the trace of observable events, in the order the source
performs them. -/

/-- Embedding of a `SchemaDoc` back into the JSON value that was parsed from
the schema file, for hashing; the stable stringification sorts keys, so the
field order chosen here is irrelevant. -/
def SchemaDoc.toJson (d : SchemaDoc) : Json :=
  Json.obj
    ((match d.tables with | some ts => [("tables", Json.obj ts)] | none => []) ++
     (match d.metadata with | some m => [("metadata", Json.obj m)] | none => []) ++
     (match d.version with | some v => [("version", Json.str v)] | none => []))

/-- Hash of a schema document as `getSchemaHash(schemaData)` computes it. -/
def hashDoc (d : SchemaDoc) : String :=
  getSchemaHash d.toJson

/-- Action choices for conflict resolution (`ConflictAction`). -/
inductive ConflictAction where
  | server
  | local
  | merge
  | diff
deriving Repr, DecidableEq

/-- Observable events of the pull pipeline. -/
inductive PullEvent where
  | promptConflict
  | promptDiff
  | writeSchema (s : SchemaDoc)
  | writeLastPull (hash : String)
deriving Repr

/-- JS object spread `{...l, ...r}`: keys of `l` in order with values
overridden by `r` where both are present, then the keys only in `r`. -/
def spreadObj (l r : List (String × Json)) : List (String × Json) :=
  (l.map (fun p => (p.1, (lookupEntry p.1 r).getD p.2))) ++
    r.filter (fun q => !(l.any (fun p => p.1 == q.1)))

/-- Merges local and server schemas (`mergeSchemas`):
`{...localSchema, ...serverSchema, tables: {...localSchema.tables,
...serverSchema.tables}}`. -/
def mergeSchemas (localSchema serverSchema : SchemaDoc) : SchemaDoc :=
  { tables := some (spreadObj (localSchema.tables.getD []) (serverSchema.tables.getD []))
    metadata := match serverSchema.metadata with
      | some m => some m
      | none => localSchema.metadata
    version := match serverSchema.version with
      | some v => some v
      | none => localSchema.version }

/-- Checks if the local schema has been modified since the last pull
(`hasLocalChanges`): the file's mtime is strictly later than the recorded
last-pull time. -/
def hasLocalChanges (lastModifiedMs lastPullMs : Nat) : Bool :=
  lastPullMs < lastModifiedMs

/-- Last-pull time resolution of `getLocalSchemaInfo`: the recorded time if
the last-pull file exists and parses, otherwise the epoch `new Date(0)`. -/
def getLastPullTime (stored : Option Nat) : Nat :=
  match stored with
  | some t => t
  | none => 0

/-- Resolves a conflict (`resolveConflict`): keep-local writes nothing,
merge writes the merged schema, anything else writes the server schema. -/
def resolveConflict (action : ConflictAction) (localSchema serverSchema : SchemaDoc) :
    List PullEvent :=
  if action = .local then []
  else if action = .merge then [.writeSchema (mergeSchemas localSchema serverSchema)]
  else [.writeSchema serverSchema]

/-- Conflict handling (`handleSchemaConflicts` plus `handleDiffView`): prompt
for a choice; the diff choice shows the diff and prompts again (that second
prompt offers only server / local / merge). -/
def handleSchemaConflicts (firstChoice secondChoice : ConflictAction)
    (localSchema serverSchema : SchemaDoc) : List PullEvent :=
  .promptConflict ::
    (if firstChoice = .diff then
      .promptDiff :: resolveConflict secondChoice localSchema serverSchema
    else resolveConflict firstChoice localSchema serverSchema)

/-- Parsed server response of the pull request: the top-level `schema`
field, the nested `data.schema` field, and the `data.updated` flag. -/
structure ServerResponse where
  schema : Option SchemaDoc
  dataSchema : Option SchemaDoc
  dataUpdated : Bool
deriving Repr

/-- The schema the response carries:
`response.data.schema || response.data.data?.schema`. -/
def resolvedServerSchema (resp : ServerResponse) : Option SchemaDoc :=
  match resp.schema with
  | some s => some s
  | none => resp.dataSchema

/-- Processes the server response (`processServerResponse`): no carried
schema means an early successful return with no writes at all; otherwise the
decision table on (updated-flag or hash difference) × local-modification
runs, and the last-pull record is written afterwards in every branch. -/
def processServerResponse (resp : ServerResponse) (schemaData : SchemaDoc)
    (localSchemaHash : String) (lastModifiedMs lastPullMs : Nat)
    (firstChoice secondChoice : ConflictAction) : List PullEvent :=
  match resolvedServerSchema resp with
  | none => []
  | some serverSchema =>
      let serverSchemaHash := hashDoc serverSchema
      let hasChanges : Bool := serverSchemaHash != localSchemaHash
      let hasLocalMods := hasLocalChanges lastModifiedMs lastPullMs
      let isUpdated := resp.dataUpdated
      (if (isUpdated || hasChanges) && hasLocalMods then
        handleSchemaConflicts firstChoice secondChoice schemaData serverSchema
      else if isUpdated || hasChanges then
        [.writeSchema serverSchema]
      else []) ++
      [.writeLastPull (if serverSchemaHash != "" then serverSchemaHash else localSchemaHash)]

/-! ## Push synchronization (src/services/push.service.ts and the push
command)

The push command is modelled as a pure function from the outcomes of its
effectful collaborators (schema file presence, the parsed last-push file,
the schema load result, authentication, project identity, and the network
result of `pushSchemaToServer`) to the event trace and the new last-push
state. -/

/-- Last push data structure (`LastPushData`), with the time in epoch
milliseconds. -/
structure LastPushData where
  time : Nat
  hash : String
  id : String
deriving Repr, DecidableEq

/-- Project credentials (`ProjectCredentials`). -/
structure ProjectCredentials where
  id : String
  name : String
deriving Repr, DecidableEq

/-- Observable events of the push command. -/
inductive PushEvent where
  | reportUnchanged
  | netSend
  | writeLastPush (hash : String)
  | reportError
deriving Repr, DecidableEq

/-- Checks if the schema has changed since the last push
(`hasSchemaChanged`): forced pushes always count as changed; a readable
last-push record with the same hash means unchanged; a missing or unreadable
record means changed. -/
def hasSchemaChanged (lastPushFile : Option LastPushData) (schemaHash : String)
    (force : Bool) : Bool :=
  if force then true
  else
    match lastPushFile with
    | some lastPushData => if lastPushData.hash = schemaHash then false else true
    | none => true

/-- Outcome of one run of the push command: its event trace and the
last-push file contents afterwards. -/
structure PushOutcome where
  events : List PushEvent
  lastPushFile : Option LastPushData
deriving Repr

/-- The push command (`push` of the push command module): each `Except` or
`Option` argument injects the outcome of one effectful collaborator.  The
last-push file is rewritten only on the success path, after
`pushSchemaToServer` has returned without error. -/
def push (schemaExists : Bool) (lastPushFile : Option LastPushData)
    (schemaLoad : Except Unit (SchemaDoc × String)) (force : Bool)
    (authResult : Except Unit Unit) (projectInfos : Option ProjectCredentials)
    (netResult : Except Unit Unit) (nowMs : Nat) : PushOutcome :=
  if !schemaExists then ⟨[], lastPushFile⟩
  else
    match schemaLoad with
    | .error _ => ⟨[.reportError], lastPushFile⟩
    | .ok (_, schemaHash) =>
        if !(hasSchemaChanged lastPushFile schemaHash force) then
          ⟨[.reportUnchanged], lastPushFile⟩
        else
          match authResult with
          | .error _ => ⟨[.reportError], lastPushFile⟩
          | .ok _ =>
              match projectInfos with
              | none => ⟨[.reportError], lastPushFile⟩
              | some projectCredentials =>
                  match netResult with
                  | .error _ => ⟨[.netSend, .reportError], lastPushFile⟩
                  | .ok _ =>
                      ⟨[.netSend, .writeLastPush schemaHash],
                        some ⟨nowMs, schemaHash, projectCredentials.id⟩⟩

/-- Number of network transmissions in a push trace. -/
def countNetSend (events : List PushEvent) : Nat :=
  events.countP (fun e => match e with | .netSend => true | _ => false)

/-! ## AI inference and the scan command (src/src/core/ai.ts,
src/src/commands/scan.ts)

`JSON.parse` is an external builtin; its outcome on the provider's text is
injected as an `Option Json` (`none` when the text is not valid JSON). -/

/-- Forcing of a `tables` property (`if (!schema.tables) schema.tables = {}`);
property assignment on a non-object primitive is a silent no-op in JS. -/
def ensureTables : Json → Json
  | .obj l =>
      match lookupEntry "tables" l with
      | some t => if jsTruthy t then .obj l else .obj (setEntry "tables" (.obj []) l)
      | none => .obj (setEntry "tables" (.obj []) l)
  | j => j

/-- The parse-error message thrown by `analyzeWithAI`. -/
def aiParseErrorMsg : String :=
  "Failed to parse AI response as JSON. The AI may have returned invalid JSON format."

/-- Tail of `analyzeWithAI` after the provider's text arrived: parse the
text strictly as JSON; on failure a local `schema = {tables: {}}` is
assigned and then the parse error is thrown (so the assignment is dead and
no schema is ever returned); on success the `tables` property is forced to
exist and the schema is returned. -/
def analyzeParsedResponse (parsed : Option Json) : Except String Json :=
  match parsed with
  | none => .error aiParseErrorMsg
  | some j => .ok (ensureTables j)

/-- Observable events of the scan command's AI path. -/
inductive ScanEvent where
  | writeSchemaFile
deriving Repr, DecidableEq

/-- The scan command's AI path after `analyzeWithAI` settles: an inference
error is caught and the command returns before `processAndFilterSchema`
(which performs the only schema-file write); a non-object result is also
rejected; otherwise the schema file is written. -/
def scanAIPath (aiResult : Except String Json) : List ScanEvent :=
  match aiResult with
  | .error _ => []
  | .ok schema =>
      if !(jsTruthy schema) || !(jsTypeofIsObject schema) then []
      else [.writeSchemaFile]

/-! ## Claim theorems -/

/-! ## Theorems -/

/-! ## The JS hash computation is the polynomial hash masked to 31 bits -/

theorem toInt32_emod (x : Int) : toInt32 x % 4294967296 = x % 4294967296 := by
  unfold toInt32
  split <;> omega

theorem hashStep_emod (h : Int) (g : Nat) (c : Char)
    (hg : h % 4294967296 = (g : Int) % 4294967296) :
    hashStep h c % 4294967296 = ((33 * g + c.toNat : Nat) : Int) % 4294967296 := by
  unfold hashStep
  have e1 := toInt32_emod (toInt32 h * 32)
  have e2 := toInt32_emod h
  omega

theorem foldl_hash_emod (l : List Char) : ∀ (h : Int) (g : Nat),
    h % 4294967296 = (g : Int) % 4294967296 →
    (l.foldl hashStep h) % 4294967296
      = ((l.foldl (fun h c => 33 * h + c.toNat) g : Nat) : Int) % 4294967296 := by
  induction l with
  | nil => intro h g hg; simpa using hg
  | cons c rest ih =>
      intro h g hg
      exact ih (hashStep h c) (33 * g + c.toNat) (hashStep_emod h g c hg)

/-- The JS bit fiddling collapses to the pure polynomial rolling hash reduced
modulo `2^31`. -/
theorem jsAnd31_jsHashString (s : String) :
    jsAnd31 (jsHashString s) = djb2 s % 2147483648 := by
  unfold jsAnd31 jsHashString djb2
  have h := foldl_hash_emod s.data 5381 5381 (by norm_num)
  omega

/-- Restatement of `getSchemaHash`: base-36 encoding of the polynomial rolling
hash of the stable JSON string, masked to 31 bits. -/
theorem getSchemaHash_spec (d : Json) :
    getSchemaHash d = toBase36 (djb2 (stableStringify d) % 2147483648) := by
  unfold getSchemaHash
  rw [jsAnd31_jsHashString]

theorem stringifyList_eq_map (l : List Json) :
    stringifyList l = l.map stableStringify := by
  induction l with
  | nil => rfl
  | cons v vs ih => simp [stringifyList, ih]

theorem stringifyEntries_eq_map (l : List (String × Json)) :
    stringifyEntries l = l.map (fun p => (p.1, stableStringify p.2)) := by
  induction l with
  | nil => rfl
  | cons p ps ih => cases p; simp [stringifyEntries, ih]

theorem map_eq_of_pointwise {α β : Type} (f : α → β) :
    ∀ (l l' : List α), l.length = l'.length →
    (∀ (i : Nat) (v v' : α), l[i]? = some v → l'[i]? = some v' → f v = f v') →
    l.map f = l'.map f := by
  intro l
  induction l with
  | nil => intro l' hlen _; cases l' with
      | nil => rfl
      | cons _ _ => simp at hlen
  | cons v vs ih =>
      intro l' hlen hpt
      cases l' with
      | nil => simp at hlen
      | cons v' vs' =>
          have h0 : f v = f v' := hpt 0 v v' (by simp) (by simp)
          have hrest : vs.map f = vs'.map f := by
            refine ih vs' (by simpa using hlen) ?_
            intro i a a' ha ha'
            exact hpt (i + 1) a a' (by simpa using ha) (by simpa using ha')
          simp [h0, hrest]

theorem sorted_keyLT_of_nodup {S : List (String × String)}
    (hs : List.Sorted keyLE S) (hn : (S.map Prod.fst).Nodup) :
    List.Sorted keyLT S := by
  have hne : List.Pairwise (fun p q : String × String => p.1 ≠ q.1) S :=
    List.pairwise_map.mp hn
  exact (hs.and hne).imp (fun h => lt_of_le_of_ne h.1 h.2)

/-- Sorting by key is determined by the multiset of entries when keys are
unique. -/
theorem insertionSort_eq_of_perm {E E' : List (String × String)}
    (hp : E.Perm E') (hn : (E.map Prod.fst).Nodup) :
    List.insertionSort keyLE E = List.insertionSort keyLE E' := by
  have hn' : (E'.map Prod.fst).Nodup := ((hp.map Prod.fst).nodup_iff).mp hn
  have hperm : (List.insertionSort keyLE E).Perm (List.insertionSort keyLE E') :=
    (List.perm_insertionSort keyLE E).trans
      (hp.trans (List.perm_insertionSort keyLE E').symm)
  have hs1 : List.Sorted keyLT (List.insertionSort keyLE E) := by
    refine sorted_keyLT_of_nodup (List.sorted_insertionSort keyLE E) ?_
    exact (((List.perm_insertionSort keyLE E).map Prod.fst).nodup_iff).mpr hn
  have hs2 : List.Sorted keyLT (List.insertionSort keyLE E') := by
    refine sorted_keyLT_of_nodup (List.sorted_insertionSort keyLE E') ?_
    exact (((List.perm_insertionSort keyLE E').map Prod.fst).nodup_iff).mpr hn'
  exact List.eq_of_perm_of_sorted hperm hs1 hs2

/-- Reordering object keys (at any depth) does not change the stable JSON
string. -/
theorem stableStringify_keyPerm {a b : Json} (h : KeyPerm a b) :
    stableStringify a = stableStringify b := by
  induction h with
  | str s => rfl
  | num n => rfl
  | bool b => rfl
  | null => rfl
  | arr l l' hlen hv ih =>
      have : stringifyList l = stringifyList l' := by
        rw [stringifyList_eq_map, stringifyList_eq_map]
        exact map_eq_of_pointwise stableStringify l l' hlen ih
      simp [stableStringify, this]
  | obj l m l' hperm hnodup hkeys hlen hv ih =>
      have hml' : stringifyEntries m = stringifyEntries l' := by
        rw [stringifyEntries_eq_map, stringifyEntries_eq_map]
        refine map_eq_of_pointwise _ m l' hlen ?_
        intro i p q hp hq
        have hk : p.1 = q.1 := by
          have h1 : (m.map Prod.fst)[i]? = some p.1 := by
            rw [List.getElem?_map, hp]; rfl
          have h2 : (l'.map Prod.fst)[i]? = some q.1 := by
            rw [List.getElem?_map, hq]; rfl
          rw [hkeys] at h1
          rw [h1] at h2
          exact Option.some.inj h2
        have hvv : stableStringify p.2 = stableStringify q.2 := ih i p q hp hq
        cases p; cases q
        simp only at hk hvv
        simp [hk, hvv]
      have hEperm : (stringifyEntries l).Perm (stringifyEntries l') := by
        rw [stringifyEntries_eq_map, stringifyEntries_eq_map]
        have h2 : m.map (fun p => (p.1, stableStringify p.2))
            = l'.map (fun p => (p.1, stableStringify p.2)) := by
          rw [← stringifyEntries_eq_map, ← stringifyEntries_eq_map]
          exact hml'
        rw [← h2]
        exact hperm.map _
      have hEnodup : ((stringifyEntries l).map Prod.fst).Nodup := by
        rw [stringifyEntries_eq_map, List.map_map]
        exact hnodup
      have : List.insertionSort keyLE (stringifyEntries l)
          = List.insertionSort keyLE (stringifyEntries l') :=
        insertionSort_eq_of_perm hEperm hEnodup
      simp [stableStringify, this]

/-! ## Supporting lemmas for the sync-engine theorems -/

theorem toBase36Core_length (fuel : Nat) : ∀ (n : Nat) (acc : List Char),
    acc.length ≤ (toBase36Core fuel n acc).length := by
  induction fuel with
  | zero => intro n acc; simp [toBase36Core]
  | succ fuel ih =>
      intro n acc
      unfold toBase36Core
      by_cases h : n = 0
      · simp [h]
      · simp only [h, if_false, reduceIte]
        calc acc.length ≤ (digitChar36 (n % 36) :: acc).length := by simp
          _ ≤ _ := ih (n / 36) (digitChar36 (n % 36) :: acc)

theorem toBase36_ne_empty (n : Nat) : toBase36 n ≠ "" := by
  unfold toBase36
  by_cases h : n = 0
  · simp [h]
  · simp only [h, if_false, reduceIte]
    intro hcontra
    have h1 : (String.mk (toBase36Core n n [])).data = ("" : String).data := by rw [hcontra]
    have h2 : (toBase36Core n n []).length = 0 := by
      simpa using congrArg List.length h1
    rcases n with _ | m
    · exact h rfl
    · have step : toBase36Core (m + 1) (m + 1) []
          = toBase36Core m ((m + 1) / 36) [digitChar36 ((m + 1) % 36)] := rfl
      have h3 := toBase36Core_length m ((m + 1) / 36) [digitChar36 ((m + 1) % 36)]
      rw [step] at h2
      rw [h2] at h3
      simp at h3

theorem hashDoc_ne_empty (d : SchemaDoc) : hashDoc d ≠ "" :=
  toBase36_ne_empty _

/-- Trace shape of the pull pipeline when the conflict condition holds. -/
theorem processServerResponse_conflict (resp : ServerResponse) (schemaData : SchemaDoc)
    (localSchemaHash : String) (lastModifiedMs lastPullMs : Nat)
    (firstChoice secondChoice : ConflictAction) (s : SchemaDoc)
    (hs : resolvedServerSchema resp = some s)
    (htrig : hashDoc s ≠ localSchemaHash ∨ resp.dataUpdated = true)
    (hmod : lastPullMs < lastModifiedMs) :
    processServerResponse resp schemaData localSchemaHash lastModifiedMs lastPullMs
        firstChoice secondChoice
      = handleSchemaConflicts firstChoice secondChoice schemaData s ++
        [PullEvent.writeLastPull (hashDoc s)] := by
  unfold processServerResponse
  rw [hs]
  have hm : hasLocalChanges lastModifiedMs lastPullMs = true := by
    simp [hasLocalChanges]
    omega
  have hcond : ((resp.dataUpdated || (hashDoc s != localSchemaHash)) &&
      hasLocalChanges lastModifiedMs lastPullMs) = true := by
    rcases htrig with h | h
    · simp [hm, bne_iff_ne, h]
    · simp [hm, h]
  have hne : (hashDoc s != "") = true := by
    simp [bne_iff_ne, hashDoc_ne_empty s]
  simp only [hcond, hne, if_true, reduceIte]

/-- In the conflict branch no schema write happens when the resolution keeps
the local version (directly or after viewing the diff). -/
theorem resolveConflict_local_no_write (localSchema serverSchema : SchemaDoc) :
    resolveConflict ConflictAction.local localSchema serverSchema = [] := rfl

theorem lookupEntry_append (k : String) (a b : List (String × Json)) :
    lookupEntry k (a ++ b)
      = match lookupEntry k a with
        | some v => some v
        | none => lookupEntry k b := by
  induction a with
  | nil => simp [lookupEntry]
  | cons p rest ih =>
      cases p with
      | mk k' v =>
          by_cases h : k' = k
          · simp [lookupEntry, h]
          · simp [lookupEntry, h, ih]

theorem lookupEntry_filter_true (k : String) (r : List (String × Json))
    (P : (String × Json) → Bool) (h : ∀ q ∈ r, q.1 = k → P q = true) :
    lookupEntry k (r.filter P) = lookupEntry k r := by
  induction r with
  | nil => simp
  | cons q rest ih =>
      have ih' := ih (fun q hq hqk => h q (List.mem_cons_of_mem _ hq) hqk)
      cases q with
      | mk k' v =>
          by_cases hk : k' = k
          · subst hk
            have hp : P (k', v) = true := h (k', v) (List.mem_cons_self _ _) rfl
            simp [List.filter_cons, hp, lookupEntry]
          · by_cases hp : P (k', v) = true
            · simp [List.filter_cons, hp, lookupEntry, hk, ih']
            · simp only [Bool.not_eq_true] at hp
              simp [List.filter_cons, hp, lookupEntry, hk, ih']

theorem lookupEntry_map_override (k : String) (l r : List (String × Json)) :
    lookupEntry k (l.map (fun p => (p.1, (lookupEntry p.1 r).getD p.2)))
      = match lookupEntry k l with
        | some v => some ((lookupEntry k r).getD v)
        | none => none := by
  induction l with
  | nil => simp [lookupEntry]
  | cons p rest ih =>
      cases p with
      | mk k' v =>
          by_cases h : k' = k
          · subst h
            simp [lookupEntry]
          · simp [lookupEntry, h, ih]

theorem lookupEntry_none_not_any (k : String) (l : List (String × Json))
    (h : lookupEntry k l = none) : l.any (fun p => p.1 == k) = false := by
  induction l with
  | nil => simp
  | cons p rest ih =>
      cases p with
      | mk k' v =>
          by_cases hk : k' = k
          · simp [lookupEntry, hk] at h
          · simp only [lookupEntry, hk, if_false, reduceIte] at h
            simp [hk, ih h]

/-- JS spread lookup: the right operand overrides the left. -/
theorem lookupEntry_spreadObj (k : String) (l r : List (String × Json)) :
    lookupEntry k (spreadObj l r)
      = match lookupEntry k r with
        | some w => some w
        | none => lookupEntry k l := by
  unfold spreadObj
  rw [lookupEntry_append]
  rw [lookupEntry_map_override]
  cases hl : lookupEntry k l with
  | some v =>
      cases hr : lookupEntry k r with
      | some w => simp
      | none => simp
  | none =>
      have hfilter : lookupEntry k (r.filter (fun q => !(l.any (fun p => p.1 == q.1))))
          = lookupEntry k r := by
        apply lookupEntry_filter_true
        intro q _ hqk
        rw [hqk]
        simp [lookupEntry_none_not_any k l hl]
      rw [hfilter]
      cases hr : lookupEntry k r with
      | some w => simp
      | none => simp

/-- C1: the claim that sanitized column types always land in the Column Type
Vocabulary, with array values becoming the literal `'array'`, fails on the
code: because `typeof [] === 'object'`, an array column takes the object
branch and is spread into an object descriptor with `type: 'string'`; the
`Array.isArray` branch of `sanitizeSchema` is unreachable.  This theorem
evaluates the code at the failing input. -/
theorem C1_array_column_not_array :
    sanitizeSchema ⟨some [("tasks", Json.obj [("labels", Json.arr [Json.str "a"])])], none, none⟩
      = ⟨some [("tasks", Json.obj [("labels",
          Json.obj [("0", Json.str "a"), ("type", Json.str "string")])])], none, none⟩
    ∧ sanitizeColumn (Json.arr [Json.str "a"]) ≠ Json.str "array" := by
  refine ⟨rfl, ?_⟩
  intro hco
  have h : sanitizeColumn (Json.arr [Json.str "a"])
      = Json.obj [("0", Json.str "a"), ("type", Json.str "string")] := rfl
  rw [h] at hco
  exact Json.noConfusion hco

/-- C9: a provider response that is not valid JSON makes the inference fail
with the parse error, never returns a schema as success, and the scan
command's AI path performs no schema-file write. -/
theorem C9_invalid_json_aborts :
    analyzeParsedResponse none = Except.error aiParseErrorMsg
    ∧ scanAIPath (analyzeParsedResponse none) = []
    ∧ ∀ j : Json, analyzeParsedResponse none ≠ Except.ok j := by
  refine ⟨rfl, rfl, ?_⟩
  intro j h
  exact Except.noConfusion h

/-- C4 as stated is false: a pull whose response carries no schema completes
without error but performs no last-pull write at all (the early return of
`processServerResponse` precedes `updateLastPullTime`). -/
theorem C4_counterexample_no_schema :
    processServerResponse ⟨none, none, false⟩ ⟨some [], none, none⟩ "h" 5 0
        ConflictAction.server ConflictAction.server = []
    ∧ ∀ h, PullEvent.writeLastPull h ∉
        processServerResponse ⟨none, none, false⟩ ⟨some [], none, none⟩ "h" 5 0
          ConflictAction.server ConflictAction.server := by
  refine ⟨rfl, ?_⟩
  intro h hmem
  rw [show processServerResponse ⟨none, none, false⟩ ⟨some [], none, none⟩ "h" 5 0
      ConflictAction.server ConflictAction.server = [] from rfl] at hmem
  exact List.not_mem_nil _ hmem

/-- C4 amended: every pull that receives a schema from the server updates
the last-pull record with the server schema's hash, in every branch of the
decision table (up-to-date, direct update, and all conflict resolutions
including keep-local). -/
theorem C4_pull_writes_lastPull (resp : ServerResponse) (schemaData : SchemaDoc)
    (localSchemaHash : String) (lastModifiedMs lastPullMs : Nat)
    (firstChoice secondChoice : ConflictAction) (s : SchemaDoc)
    (hs : resolvedServerSchema resp = some s) :
    PullEvent.writeLastPull (hashDoc s) ∈
      processServerResponse resp schemaData localSchemaHash lastModifiedMs lastPullMs
        firstChoice secondChoice := by
  unfold processServerResponse
  rw [hs]
  have hne : (hashDoc s != "") = true := by
    simp [bne_iff_ne, hashDoc_ne_empty s]
  simp [hne]

/-- Witness for C4's amended theorem at a concrete response. -/
theorem C4_pull_writes_lastPull_witness :
    PullEvent.writeLastPull (hashDoc ⟨some [], none, none⟩) ∈
      processServerResponse ⟨some ⟨some [], none, none⟩, none, false⟩ ⟨some [], none, none⟩
        "h" 5 0 ConflictAction.server ConflictAction.server :=
  C4_pull_writes_lastPull _ _ _ _ _ _ _ _ rfl

/-- C7 as stated is false on one point: a present but empty `version` string
is not preserved, because `schema.version || '1.0.0'` tests JS falsiness
rather than absence. -/
theorem C7_counterexample_empty_version :
    (⟨some [], none, some ""⟩ : SchemaDoc).version = some ""
    ∧ (filterSchema (sanitizeSchema ⟨some [], none, some ""⟩)).version = some "1.0.0"
    ∧ some ("1.0.0" : String) ≠ some ("" : String) := by
  refine ⟨rfl, rfl, ?_⟩
  decide

/-- C7 amended: the sanitize and filter passes touch only `tables`:
`metadata` is preserved whenever present (defaulting to an empty mapping
when absent) and `version` is preserved whenever present and non-empty
(defaulting to `'1.0.0'` when absent or empty). -/
theorem C7_metadata_version_preserved (D : SchemaDoc) :
    (∀ m, D.metadata = some m → (filterSchema (sanitizeSchema D)).metadata = some m)
    ∧ (D.metadata = none → (filterSchema (sanitizeSchema D)).metadata = some [])
    ∧ (∀ v, D.version = some v → v ≠ "" →
        (filterSchema (sanitizeSchema D)).version = some v)
    ∧ (D.version = none ∨ D.version = some "" →
        (filterSchema (sanitizeSchema D)).version = some "1.0.0") := by
  obtain ⟨t, md, ver⟩ := D
  refine ⟨?_, ?_, ?_, ?_⟩
  · intro m hm
    simp only at hm
    subst hm
    cases t <;> rfl
  · intro hm
    simp only at hm
    subst hm
    cases t <;> rfl
  · intro v hv hne
    simp only at hv
    subst hv
    cases t <;> simp [sanitizeSchema, filterSchema, hne]
  · rintro (hv | hv) <;> simp only at hv <;> subst hv <;>
      cases t <;> simp [sanitizeSchema, filterSchema]

/-- Witness for C7's amended theorem: a document with metadata and a
non-empty version keeps both through the composed passes. -/
theorem C7_metadata_version_preserved_witness :
    (filterSchema (sanitizeSchema
        ⟨some [("orders", Json.obj [("id", Json.str "string")])],
         some [("project", Json.obj [("id", Json.str "p1")])], some "2.0.0"⟩)).metadata
      = some [("project", Json.obj [("id", Json.str "p1")])]
    ∧ (filterSchema (sanitizeSchema
        ⟨some [("orders", Json.obj [("id", Json.str "string")])],
         some [("project", Json.obj [("id", Json.str "p1")])], some "2.0.0"⟩)).version
      = some "2.0.0" := by
  have h := C7_metadata_version_preserved
    ⟨some [("orders", Json.obj [("id", Json.str "string")])],
     some [("project", Json.obj [("id", Json.str "p1")])], some "2.0.0"⟩
  exact ⟨h.1 _ rfl, h.2.2.1 "2.0.0" rfl (by decide)⟩

/-- C2: when the server schema's hash differs from the local hash (or the
server's updated flag is set) and the schema file is newer than the last
pull, the pull prompts for an explicit resolution before any write, the
diff choice prompts a second time before any write, and keeping the local
version never writes the schema file. -/
theorem C2_pull_conflict_requires_choice (resp : ServerResponse) (schemaData : SchemaDoc)
    (localSchemaHash : String) (lastModifiedMs lastPullMs : Nat)
    (firstChoice secondChoice : ConflictAction) (s : SchemaDoc)
    (hs : resolvedServerSchema resp = some s)
    (htrig : hashDoc s ≠ localSchemaHash ∨ resp.dataUpdated = true)
    (hmod : lastPullMs < lastModifiedMs) :
    (∃ rest, processServerResponse resp schemaData localSchemaHash lastModifiedMs lastPullMs
        firstChoice secondChoice = PullEvent.promptConflict :: rest)
    ∧ (firstChoice = ConflictAction.diff →
        ∃ rest, processServerResponse resp schemaData localSchemaHash lastModifiedMs lastPullMs
          firstChoice secondChoice
            = PullEvent.promptConflict :: PullEvent.promptDiff :: rest)
    ∧ ((firstChoice = ConflictAction.local ∨
        (firstChoice = ConflictAction.diff ∧ secondChoice = ConflictAction.local)) →
        ∀ s', PullEvent.writeSchema s' ∉
          processServerResponse resp schemaData localSchemaHash lastModifiedMs lastPullMs
            firstChoice secondChoice) := by
  rw [processServerResponse_conflict resp schemaData localSchemaHash lastModifiedMs lastPullMs
    firstChoice secondChoice s hs htrig hmod]
  refine ⟨⟨_, rfl⟩, ?_, ?_⟩
  · intro hdiff
    subst hdiff
    exact ⟨resolveConflict secondChoice schemaData s ++ [PullEvent.writeLastPull (hashDoc s)],
      by simp [handleSchemaConflicts]⟩
  · rintro (hloc | ⟨hdiff, hloc⟩) <;> intro s' hmem
    · subst hloc
      simp [handleSchemaConflicts, resolveConflict] at hmem
    · subst hdiff
      subst hloc
      simp [handleSchemaConflicts, resolveConflict] at hmem

/-- Witness for C2 at a concrete conflicting pull with the keep-local
choice. -/
theorem C2_pull_conflict_requires_choice_witness :
    (∃ rest, processServerResponse ⟨some ⟨some [], none, none⟩, none, true⟩ ⟨some [], none, none⟩
        "h" 5 0 ConflictAction.local ConflictAction.server
          = PullEvent.promptConflict :: rest)
    ∧ ∀ s', PullEvent.writeSchema s' ∉
        processServerResponse ⟨some ⟨some [], none, none⟩, none, true⟩ ⟨some [], none, none⟩
          "h" 5 0 ConflictAction.local ConflictAction.server := by
  have h := C2_pull_conflict_requires_choice ⟨some ⟨some [], none, none⟩, none, true⟩
    ⟨some [], none, none⟩ "h" 5 0 ConflictAction.local ConflictAction.server
    ⟨some [], none, none⟩ rfl (Or.inr rfl) (by omega)
  exact ⟨h.1, h.2.2 (Or.inl rfl)⟩

/-- C10: with the last-pull file missing or unreadable the pull path
defaults the last-pull time to the epoch, so a schema file with a positive
modification time always counts as locally modified, and any pull that
finds remote changes requires interactive conflict resolution instead of
overwriting the file. -/
theorem C10_missing_lastPull_forces_conflict (resp : ServerResponse) (schemaData : SchemaDoc)
    (localSchemaHash : String) (lastModifiedMs : Nat)
    (firstChoice secondChoice : ConflictAction) (s : SchemaDoc)
    (hs : resolvedServerSchema resp = some s)
    (hmtime : 0 < lastModifiedMs)
    (htrig : hashDoc s ≠ localSchemaHash ∨ resp.dataUpdated = true) :
    getLastPullTime none = 0
    ∧ hasLocalChanges lastModifiedMs (getLastPullTime none) = true
    ∧ ∃ rest, processServerResponse resp schemaData localSchemaHash lastModifiedMs
        (getLastPullTime none) firstChoice secondChoice
          = PullEvent.promptConflict :: rest := by
  refine ⟨rfl, ?_, ?_⟩
  · simp [hasLocalChanges, getLastPullTime]
    omega
  · rw [processServerResponse_conflict resp schemaData localSchemaHash lastModifiedMs
      (getLastPullTime none) firstChoice secondChoice s hs htrig
      (by simpa [getLastPullTime] using hmtime)]
    exact ⟨_, rfl⟩

/-- Witness for C10 at a concrete first pull. -/
theorem C10_missing_lastPull_forces_conflict_witness :
    ∃ rest, processServerResponse ⟨some ⟨some [], none, none⟩, none, true⟩ ⟨some [], none, none⟩
        "h" 7 (getLastPullTime none) ConflictAction.merge ConflictAction.server
          = PullEvent.promptConflict :: rest :=
  (C10_missing_lastPull_forces_conflict ⟨some ⟨some [], none, none⟩, none, true⟩
    ⟨some [], none, none⟩ "h" 7 ConflictAction.merge ConflictAction.server
    ⟨some [], none, none⟩ rfl (by omega) (Or.inr rfl)).2.2

/-- C8: the conflict merge is a shallow override at the table level: a table
key present in the server schema resolves to the server's table (whether or
not it is present locally), a key present only locally resolves to the
local table, and nothing below the table level is merged. -/
theorem C8_merge_shallow (localSchema remoteSchema : SchemaDoc) (k : String) :
    (∀ w, lookupEntry k (remoteSchema.tables.getD []) = some w →
        lookupEntry k ((mergeSchemas localSchema remoteSchema).tables.getD []) = some w)
    ∧ (∀ v, lookupEntry k (localSchema.tables.getD []) = some v →
        lookupEntry k (remoteSchema.tables.getD []) = none →
        lookupEntry k ((mergeSchemas localSchema remoteSchema).tables.getD []) = some v)
    ∧ (lookupEntry k (localSchema.tables.getD []) = none →
        lookupEntry k (remoteSchema.tables.getD []) = none →
        lookupEntry k ((mergeSchemas localSchema remoteSchema).tables.getD []) = none) := by
  have hmerge : (mergeSchemas localSchema remoteSchema).tables.getD []
      = spreadObj (localSchema.tables.getD []) (remoteSchema.tables.getD []) := rfl
  refine ⟨?_, ?_, ?_⟩
  · intro w hw
    rw [hmerge, lookupEntry_spreadObj, hw]
  · intro v hv hw
    rw [hmerge, lookupEntry_spreadObj, hw, hv]
  · intro hv hw
    rw [hmerge, lookupEntry_spreadObj, hw, hv]

/-- Witness for C8 at concrete schemas: `orders` is in both (server wins),
`users` only local, `items` only remote. -/
theorem C8_merge_shallow_witness :
    lookupEntry "orders" ((mergeSchemas
        ⟨some [("users", Json.obj [("id", Json.str "string")]),
               ("orders", Json.obj [("id", Json.str "string")])], none, none⟩
        ⟨some [("orders", Json.obj [("total", Json.str "number")]),
               ("items", Json.obj [("sku", Json.str "string")])], none, none⟩).tables.getD [])
      = some (Json.obj [("total", Json.str "number")])
    ∧ lookupEntry "users" ((mergeSchemas
        ⟨some [("users", Json.obj [("id", Json.str "string")]),
               ("orders", Json.obj [("id", Json.str "string")])], none, none⟩
        ⟨some [("orders", Json.obj [("total", Json.str "number")]),
               ("items", Json.obj [("sku", Json.str "string")])], none, none⟩).tables.getD [])
      = some (Json.obj [("id", Json.str "string")]) := by
  have h1 := C8_merge_shallow
    ⟨some [("users", Json.obj [("id", Json.str "string")]),
           ("orders", Json.obj [("id", Json.str "string")])], none, none⟩
    ⟨some [("orders", Json.obj [("total", Json.str "number")]),
           ("items", Json.obj [("sku", Json.str "string")])], none, none⟩ "orders"
  have h2 := C8_merge_shallow
    ⟨some [("users", Json.obj [("id", Json.str "string")]),
           ("orders", Json.obj [("id", Json.str "string")])], none, none⟩
    ⟨some [("orders", Json.obj [("total", Json.str "number")]),
           ("items", Json.obj [("sku", Json.str "string")])], none, none⟩ "users"
  exact ⟨h1.1 _ rfl, h2.2.1 _ rfl rfl⟩

/-- C3 as stated is false on one point: reordering an array's elements does
not always change the hash, because the rolling hash is masked to 31 bits
and therefore collides.  At this concrete document the two distinct
orderings of the array hash identically. -/
theorem C3_counterexample_array_order_collision :
    getSchemaHash (Json.obj [("a", Json.arr [Json.str "mcomxild", Json.str "hkpaotog"])])
      = getSchemaHash (Json.obj [("a", Json.arr [Json.str "hkpaotog", Json.str "mcomxild"])])
    ∧ ("mcomxild" : String) ≠ "hkpaotog" := by
  constructor
  · set_option maxRecDepth 8000 in decide
  · decide

/-- C3 amended: hashing is deterministic, invariant under reordering of
object keys (content identical, keys unique, at any depth), and produces
the base-36 encoding of the rolling hash masked to 31 bits; array element
order does affect the hashed string — witnessed by a concrete document
whose two array orderings hash differently — but the 31-bit mask admits
collisions, so differing orders are not guaranteed distinct hashes. -/
theorem C3_hash_properties (D D' : Json) (hperm : KeyPerm D D') :
    getSchemaHash D = getSchemaHash D'
    ∧ (∀ E : Json, getSchemaHash E = getSchemaHash E)
    ∧ (∀ E : Json, getSchemaHash E = toBase36 (djb2 (stableStringify E) % 2147483648))
    ∧ getSchemaHash (Json.obj [("a", Json.arr [Json.str "x", Json.str "y"])])
        ≠ getSchemaHash (Json.obj [("a", Json.arr [Json.str "y", Json.str "x"])]) := by
  refine ⟨?_, fun E => rfl, fun E => getSchemaHash_spec E, ?_⟩
  · unfold getSchemaHash
    rw [stableStringify_keyPerm hperm]
  · set_option maxRecDepth 8000 in decide

/-- Witness for C3's amended theorem: two concrete documents differing only
in object key order hash identically. -/
theorem C3_hash_properties_witness :
    getSchemaHash (Json.obj [("a", Json.num 1), ("b", Json.str "x")])
      = getSchemaHash (Json.obj [("b", Json.str "x"), ("a", Json.num 1)]) := by
  have kp : KeyPerm (Json.obj [("a", Json.num 1), ("b", Json.str "x")])
      (Json.obj [("b", Json.str "x"), ("a", Json.num 1)]) := by
    refine KeyPerm.obj [("a", Json.num 1), ("b", Json.str "x")]
      [("b", Json.str "x"), ("a", Json.num 1)]
      [("b", Json.str "x"), ("a", Json.num 1)] ?_ ?_ rfl rfl ?_
    · exact List.Perm.swap _ _ _
    · decide
    · intro i p q hp hq
      match i with
      | 0 =>
          simp only [List.getElem?_cons_zero, Option.some.injEq] at hp hq
          subst hp
          subst hq
          exact KeyPerm.str _
      | 1 =>
          simp only [List.getElem?_cons_succ, List.getElem?_cons_zero,
            Option.some.injEq] at hp hq
          subst hp
          subst hq
          exact KeyPerm.num _
      | (n + 2) =>
          simp only [List.getElem?_cons_succ, List.getElem?_nil] at hp
          exact Option.noConfusion hp
  exact (C3_hash_properties _ _ kp).1

/-- Any single push run transmits at most once. -/
theorem countNetSend_push_le_one (schemaExists : Bool) (lp : Option LastPushData)
    (load : Except Unit (SchemaDoc × String)) (force : Bool)
    (auth : Except Unit Unit) (proj : Option ProjectCredentials)
    (net : Except Unit Unit) (now : Nat) :
    countNetSend (push schemaExists lp load force auth proj net now).events ≤ 1 := by
  cases schemaExists <;>
    rcases load with e | ⟨d, hsh⟩ <;>
    rcases auth with e' | v <;>
    rcases proj with _ | pr <;>
    rcases net with e'' | v' <;>
    first
      | (by_cases hch : hasSchemaChanged lp hsh force = true <;>
          simp_all [push, countNetSend])
      | simp_all [push, countNetSend]

/-- C5 as stated is false on one point: when the first transmission fails
the last-push record is not written, so pushing the same unchanged schema a
second time transmits again — two transmissions in total. -/
theorem C5_counterexample_failed_first_push :
    countNetSend (push true none (Except.ok (⟨some [], none, none⟩, "abc")) false
        (Except.ok ()) (some ⟨"p1", "proj"⟩) (Except.error ()) 0).events
      + countNetSend (push true
          (push true none (Except.ok (⟨some [], none, none⟩, "abc")) false
            (Except.ok ()) (some ⟨"p1", "proj"⟩) (Except.error ()) 0).lastPushFile
          (Except.ok (⟨some [], none, none⟩, "abc")) false
          (Except.ok ()) (some ⟨"p1", "proj"⟩) (Except.ok ()) 1).events = 2 := by
  decide

/-- C5 amended: without `force`, a push whose hash matches the last-push
record reports the schema unchanged and performs zero network calls; and
two consecutive pushes of the same schema without `force` perform at most
one network transmission provided the first push's transmission (if
reached) succeeds. -/
theorem C5_noop_push (lp : Option LastPushData) (d : SchemaDoc) (h : String)
    (auth₁ auth₂ : Except Unit Unit) (proj₁ proj₂ : Option ProjectCredentials)
    (net₂ : Except Unit Unit) (now₁ now₂ : Nat) :
    (∀ rec, lp = some rec → rec.hash = h →
      push true lp (Except.ok (d, h)) false auth₁ proj₁ net₂ now₁
        = ⟨[PushEvent.reportUnchanged], lp⟩)
    ∧ countNetSend (push true lp (Except.ok (d, h)) false auth₁ proj₁
          (Except.ok ()) now₁).events
      + countNetSend (push true
          (push true lp (Except.ok (d, h)) false auth₁ proj₁ (Except.ok ()) now₁).lastPushFile
          (Except.ok (d, h)) false auth₂ proj₂ net₂ now₂).events ≤ 1 := by
  constructor
  · intro rec hlp hhash
    subst hlp
    simp [push, hasSchemaChanged, hhash]
  · by_cases hch : hasSchemaChanged lp h false = true
    · rcases auth₁ with e | v
      · have h1 : push true lp (Except.ok (d, h)) false (Except.error e) proj₁
            (Except.ok ()) now₁ = ⟨[PushEvent.reportError], lp⟩ := by
          simp [push, hch]
        rw [h1]
        simpa [countNetSend] using
          countNetSend_push_le_one true lp (Except.ok (d, h)) false auth₂ proj₂ net₂ now₂
      · rcases proj₁ with _ | pr
        · have h1 : push true lp (Except.ok (d, h)) false (Except.ok v) none
              (Except.ok ()) now₁ = ⟨[PushEvent.reportError], lp⟩ := by
            simp [push, hch]
          rw [h1]
          simpa [countNetSend] using
            countNetSend_push_le_one true lp (Except.ok (d, h)) false auth₂ proj₂ net₂ now₂
        · have h1 : push true lp (Except.ok (d, h)) false (Except.ok v) (some pr)
              (Except.ok ()) now₁
              = ⟨[PushEvent.netSend, PushEvent.writeLastPush h],
                 some ⟨now₁, h, pr.id⟩⟩ := by
            simp [push, hch]
          rw [h1]
          have h2 : push true (some ⟨now₁, h, pr.id⟩) (Except.ok (d, h)) false auth₂ proj₂
              net₂ now₂ = ⟨[PushEvent.reportUnchanged], some ⟨now₁, h, pr.id⟩⟩ := by
            simp [push, hasSchemaChanged]
          rw [h2]
          simp [countNetSend]
    · have h1 : push true lp (Except.ok (d, h)) false auth₁ proj₁ (Except.ok ()) now₁
          = ⟨[PushEvent.reportUnchanged], lp⟩ := by
        simp [push, hch]
      rw [h1]
      simpa [countNetSend] using
        countNetSend_push_le_one true lp (Except.ok (d, h)) false auth₂ proj₂ net₂ now₂

/-- Witness for C5's amended theorem: with a matching last-push record the
push reports unchanged and its trace holds no network send. -/
theorem C5_noop_push_witness :
    push true (some ⟨3, "abc", "p1"⟩) (Except.ok (⟨some [], none, none⟩, "abc")) false
        (Except.ok ()) (some ⟨"p1", "proj"⟩) (Except.ok ()) 9
      = ⟨[PushEvent.reportUnchanged], some ⟨3, "abc", "p1"⟩⟩ :=
  (C5_noop_push (some ⟨3, "abc", "p1"⟩) ⟨some [], none, none⟩ "abc"
    (Except.ok ()) (Except.ok ()) (some ⟨"p1", "proj"⟩) (some ⟨"p1", "proj"⟩)
    (Except.ok ()) 9 0).1 ⟨3, "abc", "p1"⟩ rfl rfl

/-- C6: the last-push record is written only after the transmission to the
backend succeeds; any failure (load, authentication, project resolution or
network) leaves the record unchanged, and a written record implies the
network call succeeded and followed the send. -/
theorem C6_lastPush_only_after_success (schemaExists : Bool) (lp : Option LastPushData)
    (load : Except Unit (SchemaDoc × String)) (force : Bool)
    (auth : Except Unit Unit) (proj : Option ProjectCredentials)
    (net : Except Unit Unit) (now : Nat) :
    (net = Except.error () →
      (push schemaExists lp load force auth proj net now).lastPushFile = lp
      ∧ ∀ h, PushEvent.writeLastPush h ∉
          (push schemaExists lp load force auth proj net now).events)
    ∧ (∀ h, PushEvent.writeLastPush h ∈
          (push schemaExists lp load force auth proj net now).events →
        net = Except.ok ()
        ∧ (push schemaExists lp load force auth proj net now).events
            = [PushEvent.netSend, PushEvent.writeLastPush h])
    ∧ ((push schemaExists lp load force auth proj net now).lastPushFile ≠ lp →
        net = Except.ok ()) := by
  cases schemaExists <;>
    rcases load with e | ⟨d, hsh⟩ <;>
    rcases auth with e' | v <;>
    rcases proj with _ | pr <;>
    rcases net with e'' | v' <;>
    first
      | (by_cases hch : hasSchemaChanged lp hsh force = true <;>
          simp_all [push])
      | simp_all [push]

/-- Witness for C6 at a concrete failed transmission: the last-push record
is untouched. -/
theorem C6_lastPush_only_after_success_witness :
    (push true (some ⟨3, "old", "p1"⟩) (Except.ok (⟨some [], none, none⟩, "abc")) false
        (Except.ok ()) (some ⟨"p1", "proj"⟩) (Except.error ()) 9).lastPushFile
      = some ⟨3, "old", "p1"⟩ :=
  ((C6_lastPush_only_after_success true (some ⟨3, "old", "p1"⟩)
    (Except.ok (⟨some [], none, none⟩, "abc")) false (Except.ok ())
    (some ⟨"p1", "proj"⟩) (Except.error ()) 9).1 rfl).1

end Hosby
